import Mathlib

/-!
Verification of the signal-driven long/short pipeline.

The development shallowly embeds the three core scripts:
* `Scripts/generate_data.py`  — synthetic universe generator with vanish events
  (`simulate_next`, `select_vanish_batch`, `generate_synthetic_dataset`);
* `Scripts/flag_dataset.py`   — vanish-distance flagger (`flag_dataset`);
* `Scripts/build_trading_dataset.py` — rebalancing engine (`build_trading_dataset`),
  decomposed here into the pivoted matrices and the per-cell weight function.

Real-valued quantities (prices, signals, weights) are embedded as rationals.
Random draws (`np.random.*`, `random.*`) are embedded as explicit oracle
parameters; theorems quantify over every sequence of draws, with validity
predicates stating exactly the membership facts that the library sampling
primitives guarantee (`random.choice l ∈ l`, `random.sample` returns distinct
members).  Python's stable `sorted` is embedded as `List.insertionSort`.
Dates are trading-day indices (`Nat`); tickers are their numeric id suffix
(`Nat`), since `next_ticker_name` injects ids into names `"C{id}"`.
-/

namespace SignalLS

/-! ### Data model -/

/-- One row of the raw panel `synthetic_raw.csv` / `synthetic_clean.csv`:
`(date, ticker, close, signal)`. -/
structure RawRow where
  date : Nat
  ticker : Nat
  close : ℚ
  signal : ℚ
deriving DecidableEq

/-- One row of the flagged panel `synthetic_flagged.csv`: the raw columns plus
the derived columns added by `flag_dataset.py`.  The column named
`unsafe_to_trade` in the source is called `not_safe_to_trade` here. -/
structure FlaggedRow where
  date : Nat
  ticker : Nat
  close : ℚ
  signal : ℚ
  days_to_vanish_trading : Nat
  disappears_t1 : Bool
  disappears_t2 : Bool
  disappears_t3 : Bool
  not_safe_to_trade : Bool
deriving DecidableEq

/-- One row appended by the generator loop: `(today, t, price, signal)`. -/
structure DailyRecord where
  date : Nat
  ticker : Nat
  close : ℚ
  signal : ℚ
deriving DecidableEq

/-! ### generate_data.py: ticker state and one-day simulation -/

/-- `TickerState.__init__`: per-ticker process parameters and last values.
`phi`, `drift`, `vol` hold the already-clipped values (clipping is applied by
`mkTickerState` below from the raw normal draws). -/
structure TickerState where
  ticker : Nat
  last_price : ℚ
  last_signal : ℚ
  phi : ℚ
  drift : ℚ
  vol : ℚ
deriving DecidableEq

/-- The three normal draws consumed by one call of `simulate_next`:
`eps ~ N(0,0.5)`, `eta ~ N(0,0.1)` (the `(1-phi)` noise term), and
`shock ~ N(0,vol)`. -/
structure SimNoise where
  eps : ℚ
  eta : ℚ
  shock : ℚ
deriving DecidableEq

/-- The draws consumed when a `TickerState` is created (at universe start or
as a vanish replacement): `price ~ U[50,200]`, `signal ~ N(0,1)`,
`phiRaw ~ N(0.6,0.1)`, `driftRaw ~ N(0.0002,0.0005)`, `volRaw ~ N(0.02,0.01)`. -/
structure InitDraw where
  price : ℚ
  signal : ℚ
  phiRaw : ℚ
  driftRaw : ℚ
  volRaw : ℚ
deriving DecidableEq

/-- `TickerState.__init__`: clip `phi` to `[0.2,0.95]` and `vol` to
`[0.005,0.08]` (`np.clip x lo hi = min (max x lo) hi`). -/
def mkTickerState (t : Nat) (d : InitDraw) : TickerState :=
  { ticker := t
    last_price := d.price
    last_signal := d.signal
    phi := min (max d.phiRaw (0.2 : ℚ)) (0.95 : ℚ)
    drift := d.driftRaw
    vol := min (max d.volRaw (0.005 : ℚ)) (0.08 : ℚ) }

/-- `simulate_next(state)`: next day's `(close, signal)` and the updated state.
The price is a multiplicative walk, clamped to `max(0.5, last_price*0.5)`
whenever the computed value is non-positive. -/
def simulate_next (st : TickerState) (nz : SimNoise) : (ℚ × ℚ) × TickerState :=
  let next_signal := st.phi * st.last_signal + (1 - st.phi) * nz.eta + nz.eps * (0.05 : ℚ)
  let raw_price := st.last_price * (1 + st.drift + nz.shock)
  let next_price := if raw_price ≤ 0 then max (0.5 : ℚ) (st.last_price * (0.5 : ℚ)) else raw_price
  ((next_price, next_signal),
   { st with last_price := next_price, last_signal := next_signal })

/-! ### generate_data.py: vanish-batch selection -/

/-- The stratum labels `"top"`, `"bottom"`, `"mid"` attached to chosen tickers. -/
inductive Strat where
  | top
  | bottom
  | mid
deriving DecidableEq

/-- `sorted(active_tickers, key=lambda t: today_signal[t], reverse=True)`:
stable sort, highest signal first. -/
def rankedDesc (active : List Nat) (sig : Nat → ℚ) : List Nat :=
  active.insertionSort (fun a b => sig b ≤ sig a)

/-- `max(1, math.ceil(n * 0.10))` (both `TOP_PERCENTILE` and
`BOTTOM_PERCENTILE` default to `0.10`); `⌈n/10⌉ = (n+9)/10` in `Nat`. -/
def stratK (n : Nat) : Nat := max 1 ((n + 9) / 10)

/-- `top_group = set(ranked[:top_k])`. -/
def topGroup (active : List Nat) (sig : Nat → ℚ) : List Nat :=
  let rk := rankedDesc active sig
  rk.take (stratK rk.length)

/-- `bottom_group = set(ranked[-bottom_k:])`. -/
def bottomGroup (active : List Nat) (sig : Nat → ℚ) : List Nat :=
  let rk := rankedDesc active sig
  rk.drop (rk.length - stratK rk.length)

/-- `middle_group = set(ranked[top_k : n - bottom_k])`. -/
def middleGroup (active : List Nat) (sig : Nat → ℚ) : List Nat :=
  let rk := rankedDesc active sig
  (rk.drop (stratK rk.length)).take (rk.length - stratK rk.length - stratK rk.length)

/-- The mandatory picks: one from `top_group`, one from `bottom_group`
(excluding the first pick), and one from `middle_group - used` when that set
is non-empty.  `cTop`, `cBot`, `cMid` are the values returned by the three
`random.choice` calls. -/
def mandatoryPicks (active : List Nat) (sig : Nat → ℚ) (cTop cBot cMid : Nat) :
    List (Nat × Strat) :=
  let base := [(cTop, Strat.top), (cBot, Strat.bottom)]
  if 0 < ((middleGroup active sig).filter (fun x => decide (x ≠ cTop ∧ x ≠ cBot))).length
  then base ++ [(cMid, Strat.mid)]
  else base

/-- The stratum label recomputed for fill picks:
`"top" if t in top_group else "bottom" if t in bottom_group else "mid"`. -/
def fillLabel (active : List Nat) (sig : Nat → ℚ) (t : Nat) : Strat :=
  if t ∈ topGroup active sig then Strat.top
  else if t ∈ bottomGroup active sig then Strat.bottom
  else Strat.mid

/-- `select_vanish_batch(active_tickers, history_signals, batch_size)`.
`sig t` is `history_signals[t][-1][1]` (the most recent signal); `fill` is the
list returned by `random.sample(candidates, remaining)`, used only when
`remaining = batch_size - len(chosen) > 0`. -/
def select_vanish_batch (active : List Nat) (sig : Nat → ℚ) (batch_size : Nat)
    (cTop cBot cMid : Nat) (fill : List Nat) : List (Nat × Strat) :=
  let mand := mandatoryPicks active sig cTop cBot cMid
  if mand.length < batch_size then
    mand ++ fill.map (fun t => (t, fillLabel active sig t))
  else mand

/-- What the random primitives guarantee about the draws consumed by
`select_vanish_batch`: `random.choice` returns a member of its argument
(top pick from `top_group`, bottom pick from `bottom_group - used`, middle
pick from `middle_group - used` when non-empty), and `random.sample`
returns `remaining` distinct members of `set(active) - used`. -/
def validPicks (active : List Nat) (sig : Nat → ℚ) (batch_size : Nat)
    (cTop cBot cMid : Nat) (fill : List Nat) : Bool :=
  decide (cTop ∈ topGroup active sig) &&
  decide (cBot ∈ bottomGroup active sig) &&
  decide (cBot ≠ cTop) &&
  (if 0 < ((middleGroup active sig).filter (fun x => decide (x ≠ cTop ∧ x ≠ cBot))).length
   then decide (cMid ∈ middleGroup active sig) && decide (cMid ≠ cTop) && decide (cMid ≠ cBot)
   else true) &&
  (if (mandatoryPicks active sig cTop cBot cMid).length < batch_size
   then decide fill.Nodup &&
        decide (∀ t ∈ fill, t ∈ active ∧ t ∉ (mandatoryPicks active sig cTop cBot cMid).map Prod.fst) &&
        decide (fill.length = batch_size - (mandatoryPicks active sig cTop cBot cMid).length)
   else true)

/-! ### generate_data.py: the day loop of `generate_synthetic_dataset` -/

/-- The mutable state of the generator loop: the `active` list, the `states`
dict (embedded as the active list plus a total state map), the
`to_remove_next_day` set, `next_vanish_day` (`-1` = no further events) and
the fresh-name counter `next_id`. -/
structure GenState where
  active : List Nat
  stMap : Nat → TickerState
  toRemoveNext : List Nat
  nextVanish : Int
  nextId : Nat

/-- The random draws consumed by one iteration of the day loop. -/
structure DayOracle where
  noise : Nat → SimNoise
  batchSizeDraw : Nat
  cTop : Nat
  cBot : Nat
  cMid : Nat
  fill : List Nat
  newDraw : Nat → InitDraw
  gapDraw : Nat

/-- Step 1 of the day loop: `active.remove(t); del states[t]` for every `t`
scheduled the previous day. -/
def afterRemoval (s : GenState) : List Nat :=
  s.active.filter (fun t => decide (t ∉ s.toRemoveNext))

/-- The state map after today's `simulate_next` pass over the active tickers. -/
def simState (s : GenState) (noise : Nat → SimNoise) : Nat → TickerState :=
  fun t => if t ∈ afterRemoval s then (simulate_next (s.stMap t) (noise t)).2 else s.stMap t

/-- Each ticker's most recent signal after today's simulation
(`history_signals[t][-1][1]` as read by `select_vanish_batch`). -/
def simSig (s : GenState) (noise : Nat → SimNoise) : Nat → ℚ :=
  fun t => (simState s noise t).last_signal

/-- The `DailyRecord`s appended on day `i`: one per active ticker. -/
def dayRecs (i : Nat) (s : GenState) (noise : Nat → SimNoise) : List DailyRecord :=
  (afterRemoval s).map (fun t =>
    { date := i
      ticker := t
      close := ((simulate_next (s.stMap t) (noise t)).1).1
      signal := ((simulate_next (s.stMap t) (noise t)).1).2 })

/-- The batch chosen when a vanish event fires at state `s` with draws `o`:
`select_vanish_batch(active, history_signals, min(batch_size, len(active)-1))`. -/
def vanishChosen (s : GenState) (o : DayOracle) : List (Nat × Strat) :=
  select_vanish_batch (afterRemoval s) (simSig s o.noise)
    (min o.batchSizeDraw ((afterRemoval s).length - 1)) o.cTop o.cBot o.cMid o.fill

/-- One iteration of the day loop (`for i, today in enumerate(dates)`):
removal, simulation, and — when `i == next_vanish_day` — batch selection
(with `batch_size = min(randint(..), len(active)-1)`), scheduling of the
batch for removal tomorrow, creation of `len(chosen)` replacement states,
and drawing of the next vanish day (`-1` when past the calendar). -/
def stepDay (numDays i : Nat) (o : DayOracle) (s : GenState) : GenState :=
  if (i : Int) = s.nextVanish then
    { active := afterRemoval s ++ List.range' s.nextId (vanishChosen s o).length
      stMap := fun t => if t ∈ List.range' s.nextId (vanishChosen s o).length
                        then mkTickerState t (o.newDraw t) else simState s o.noise t
      toRemoveNext := (vanishChosen s o).map Prod.fst
      nextVanish := if numDays ≤ i + o.gapDraw then -1 else ((i + o.gapDraw : Nat) : Int)
      nextId := s.nextId + (vanishChosen s o).length }
  else
    { active := afterRemoval s
      stMap := simState s o.noise
      toRemoveNext := []
      nextVanish := s.nextVanish
      nextId := s.nextId }

/-- The initial state: `INITIAL_UNIVERSE` tickers with ids `1..n` freshly
created from uniform/normal draws, `next_vanish_day = random.choice(gap_options)`
(supplied as `gap0`), nothing pending removal. -/
def initGen (n : Nat) (draws : Nat → InitDraw) (gap0 : Nat) : GenState :=
  { active := List.range' 1 n
    stMap := fun t => mkTickerState t (draws t)
    toRemoveNext := []
    nextVanish := (gap0 : Int)
    nextId := n + 1 }

/-- The generator state at the start of day `i`. -/
def stateAt (numDays : Nat) (s0 : GenState) (o : Nat → DayOracle) : Nat → GenState
  | 0 => s0
  | i + 1 => stepDay numDays i (o i) (stateAt numDays s0 o i)

/-- The records appended on day `i`. -/
def dayRecords (numDays : Nat) (s0 : GenState) (o : Nat → DayOracle) (i : Nat) :
    List DailyRecord :=
  dayRecs i (stateAt numDays s0 o i) (o i).noise

/-- `generate_synthetic_dataset`: the concatenated long-format panel over the
whole calendar. -/
def generate_synthetic_dataset (numDays n : Nat) (draws : Nat → InitDraw)
    (gap0 : Nat) (o : Nat → DayOracle) : List DailyRecord :=
  (List.range numDays).flatMap (fun i => dayRecords numDays (initGen n draws gap0) o i)

/-- Validity of day `i`'s draws at state `s`: when a vanish event fires, the
three `random.choice` picks and the `random.sample` fill satisfy the sampling
contracts recorded by `validPicks`. -/
def validDay (i : Nat) (s : GenState) (o : DayOracle) : Prop :=
  (i : Int) = s.nextVanish →
    validPicks (afterRemoval s) (simSig s o.noise)
      (min o.batchSizeDraw ((afterRemoval s).length - 1)) o.cTop o.cBot o.cMid o.fill = true

/-- The loop invariant of the generator: active ids are distinct, the pending
removals are distinct active tickers, the active count exceeds the universe
size by exactly the pending-removal count, and every active id is below the
fresh-name counter. -/
def GenInv (n : Nat) (s : GenState) : Prop :=
  s.active.Nodup ∧ s.toRemoveNext.Nodup ∧ (∀ t ∈ s.toRemoveNext, t ∈ s.active) ∧
  s.active.length = n + s.toRemoveNext.length ∧ (∀ t ∈ s.active, t < s.nextId)

/-! ### flag_dataset.py -/

/-- The sort key of `df.sort_values(["ticker", "date"])`. -/
def rowLE (r s : RawRow) : Prop :=
  r.ticker < s.ticker ∨ (r.ticker = s.ticker ∧ r.date ≤ s.date)

instance rowLE.decidableRel : DecidableRel rowLE := fun r s => by
  unfold rowLE; infer_instance

instance rowLE.isTotal : IsTotal RawRow rowLE := by
  constructor
  intro a b
  rcases Nat.lt_trichotomy a.ticker b.ticker with h | h | h
  · exact Or.inl (Or.inl h)
  · rcases Nat.le_total a.date b.date with hd | hd
    · exact Or.inl (Or.inr ⟨h, hd⟩)
    · exact Or.inr (Or.inr ⟨h.symm, hd⟩)
  · exact Or.inr (Or.inl h)

instance rowLE.isTrans : IsTrans RawRow rowLE := by
  constructor
  intro a b c hab hbc
  rcases hab with h1 | ⟨e1, d1⟩
  · rcases hbc with h2 | ⟨e2, _⟩
    · exact Or.inl (h1.trans h2)
    · exact Or.inl (e2 ▸ h1)
  · rcases hbc with h2 | ⟨e2, d2⟩
    · exact Or.inl (e1 ▸ h2)
    · exact Or.inr ⟨e1.trans e2, d1.trans d2⟩

/-- `df.sort_values(["ticker", "date"])` (stable). -/
def sortPanel (p : List RawRow) : List RawRow := p.insertionSort rowLE

/-- `days_to_vanish_trading` of row `r`: with unique `(ticker, date)` keys,
`rank(method="first", ascending=False) - 1` over the ticker's group equals the
number of rows of the same ticker with a strictly later date. -/
def distOf (p : List RawRow) (r : RawRow) : Nat :=
  p.countP (fun u => decide (u.ticker = r.ticker) && decide (r.date < u.date))

/-- The derived columns attached to row `r` of panel `p`. -/
def annotateRow (p : List RawRow) (r : RawRow) : FlaggedRow :=
  { date := r.date
    ticker := r.ticker
    close := r.close
    signal := r.signal
    days_to_vanish_trading := distOf p r
    disappears_t1 := decide (distOf p r = 1)
    disappears_t2 := decide (distOf p r = 2)
    disappears_t3 := decide (distOf p r = 3)
    not_safe_to_trade := decide (1 ≤ distOf p r ∧ distOf p r ≤ 3) }

/-- `flag_dataset()`: sort by `(ticker, date)`, rank each ticker's dates
descending, derive `days_to_vanish_trading` and the boolean flags
(`unsafe_to_trade = days_to_vanish_trading.between(1, 3)`). -/
def flag_dataset (p : List RawRow) : List FlaggedRow :=
  (sortPanel p).map (annotateRow (sortPanel p))

/-- Dropping the three derived columns (plus the `t2`/`t3` helpers) from a
flagged panel. -/
def stripFlags (q : List FlaggedRow) : List RawRow :=
  q.map (fun fr => { date := fr.date, ticker := fr.ticker, close := fr.close, signal := fr.signal })

/-- The `(ticker, date)` key of a raw row. -/
def rowKey (r : RawRow) : Nat × Nat := (r.ticker, r.date)

/-- The upstream data contract: each `(ticker, date)` pair occurs at most once. -/
def UniqueKeys (p : List RawRow) : Prop :=
  (p.map rowKey).Nodup

instance UniqueKeys.decidable (p : List RawRow) : Decidable (UniqueKeys p) :=
  inferInstanceAs (Decidable (p.map rowKey).Nodup)

/-- The rows of ticker `t` in the flagged panel, in panel (= ascending date)
order. -/
def tickerSeq (p : List RawRow) (t : Nat) : List FlaggedRow :=
  (flag_dataset p).filter (fun fr => decide (fr.ticker = t))

/-- The rows of ticker `t` in the sorted raw panel (the group over which the
descending rank is computed). -/
def rawSeq (p : List RawRow) (t : Nat) : List RawRow :=
  (sortPanel p).filter (fun r => decide (r.ticker = t))

/-! ### build_trading_dataset.py -/

def HOLDING_PERIOD : Nat := 3

def N_LONGS : Nat := 5

def N_SHORTS : Nat := 5

def LONG_ALLOCATION : ℚ := 0.80

def SHORT_ALLOCATION : ℚ := -0.20

def LONG_W : ℚ := LONG_ALLOCATION / (N_LONGS : ℚ)

def SHORT_W : ℚ := SHORT_ALLOCATION / (N_SHORTS : ℚ)

/-- The row of the flagged panel at key `(date, ticker)`, if any — the cell of
the `df.pivot(index="date", columns="ticker")` tables. -/
def pivotCell (panel : List FlaggedRow) (d t : Nat) : Option FlaggedRow :=
  panel.find? (fun r => decide (r.date = d) && decide (r.ticker = t))

/-- `prices.loc[d, t]`: missing when the ticker has no record that day. -/
def priceAt (panel : List FlaggedRow) (d t : Nat) : Option ℚ :=
  (pivotCell panel d t).map FlaggedRow.close

/-- `signals.loc[d, t]`. -/
def signalAt (panel : List FlaggedRow) (d t : Nat) : Option ℚ :=
  (pivotCell panel d t).map FlaggedRow.signal

/-- `unsafe.loc[d, t]` after `.fillna(True)`: missing cells count as not safe. -/
def notSafeAt (panel : List FlaggedRow) (d t : Nat) : Bool :=
  ((pivotCell panel d t).map FlaggedRow.not_safe_to_trade).getD true

/-- `dates = prices.index.to_list()`: the distinct dates, ascending. -/
def tradingDates (panel : List FlaggedRow) : List Nat :=
  ((panel.map FlaggedRow.date).dedup).insertionSort (· ≤ ·)

/-- The pivot's ticker columns: the distinct tickers, ascending. -/
def tickerCols (panel : List FlaggedRow) : List Nat :=
  ((panel.map FlaggedRow.ticker).dedup).insertionSort (· ≤ ·)

/-- The calendar date at day index `i`. -/
def dateIdx (panel : List FlaggedRow) (i : Nat) : Nat :=
  (tradingDates panel).getD i 0

/-- `tradable = today_signals[today_unsafe == False]` where
`today_signals = signals.loc[date].dropna()`: tickers with a defined signal on
day `i` whose (filled) flag is `False`. -/
def tradable0 (panel : List FlaggedRow) (i : Nat) : List Nat :=
  (tickerCols panel).filter (fun t =>
    (signalAt panel (dateIdx panel i) t).isSome &&
    (notSafeAt panel (dateIdx panel i) t == false))

/-- The forward-lookahead mask: a non-missing price on day `i` and on each of
the next `HOLDING_PERIOD` trading days. -/
def lookaheadOk (panel : List FlaggedRow) (i t : Nat) : Bool :=
  (List.range (HOLDING_PERIOD + 1)).all (fun off =>
    (priceAt panel (dateIdx panel (i + off)) t).isSome)

/-- The surviving candidate pool on rebalance day `i`: lookahead-filtered when
enough future days remain (`i + HOLDING_PERIOD < len(dates)`), otherwise
forced empty (`tradable.iloc[0:0]`). -/
def tradable (panel : List FlaggedRow) (i : Nat) : List Nat :=
  if i + HOLDING_PERIOD < (tradingDates panel).length then
    (tradable0 panel i).filter (fun t => lookaheadOk panel i t)
  else []

/-- The survivor pool sorted by signal ascending
(`tradable.sort_values(ascending=True)`). -/
def tradSortAsc (panel : List FlaggedRow) (i : Nat) : List Nat :=
  (tradable panel i).insertionSort (fun a b =>
    (signalAt panel (dateIdx panel i) a).getD 0 ≤ (signalAt panel (dateIdx panel i) b).getD 0)

/-- `tradable.sort_values(ascending=False).head(N_LONGS)`: pandas produces the
descending order by reversing the ascending argsort. -/
def longs (panel : List FlaggedRow) (i : Nat) : List Nat :=
  ((tradSortAsc panel i).reverse).take N_LONGS

/-- `tradable.sort_values(ascending=True).head(N_SHORTS)`. -/
def shorts (panel : List FlaggedRow) (i : Nat) : List Nat :=
  (tradSortAsc panel i).take N_SHORTS

/-- The weight-matrix cell at day index `i`, ticker `t`.  On a rebalance day
(`i % HOLDING_PERIOD == 0`) the whole row is first set to `0.0`, then long
weights are assigned, then short weights (overwriting any overlap, as the
source's second loop runs after the first); other rows stay missing (hold). -/
def weightCell (panel : List FlaggedRow) (i t : Nat) : Option ℚ :=
  if i % HOLDING_PERIOD = 0 then
    some (if t ∈ shorts panel i then SHORT_W
          else if t ∈ longs panel i then LONG_W
          else 0)
  else none

/-- The sum of the nonzero weights assigned in row `i` of the weight matrix
(hold cells and explicit-flatten `0.0` cells both contribute `0`). -/
def rowWeightSum (panel : List FlaggedRow) (i : Nat) : ℚ :=
  ((tickerCols panel).map (fun t => (weightCell panel i t).getD 0)).sum

/-! ### Concrete fixtures used to evaluate the definitions -/

/-- A concrete ticker state with a positive last price. -/
def wTick : TickerState :=
  { ticker := 1, last_price := 100, last_signal := 0, phi := 0.5, drift := 0, vol := 0.02 }

/-- A concrete (zero) draw for one simulation step. -/
def wNoise : SimNoise := { eps := 0, eta := 0, shock := 0 }

/-- A concrete signal assignment on the four tickers `0,1,2,3`. -/
def cSig4 : Nat → ℚ := fun t => [(0 : ℚ), 1, 2, 3].getD t 0

/-- A concrete raw panel: ticker `0` on dates `0,1,2` and ticker `1` on date `0`. -/
def pW : List RawRow :=
  [{ date := 0, ticker := 0, close := 10, signal := 1 },
   { date := 1, ticker := 0, close := 11, signal := 1 },
   { date := 2, ticker := 0, close := 12, signal := 1 },
   { date := 0, ticker := 1, close := 20, signal := 2 }]

/-- A one-row flagged panel (a single trading date, so every rebalance pool is
forced empty). -/
def wPanelTiny : List FlaggedRow :=
  [{ date := 0, ticker := 0, close := 10, signal := 1, days_to_vanish_trading := 0,
     disappears_t1 := false, disappears_t2 := false, disappears_t3 := false,
     not_safe_to_trade := false }]

/-- A flagged panel with one ticker `7` fully present on dates `0..4` and safe
to trade: on rebalance day `0` the survivor pool is the singleton `[7]`, so the
top-5 and bottom-5 slices coincide. -/
def cxPanel : List FlaggedRow :=
  (List.range 5).map (fun d =>
    { date := d, ticker := 7, close := 100, signal := 1, days_to_vanish_trading := 4 - d,
      disappears_t1 := false, disappears_t2 := false, disappears_t3 := false,
      not_safe_to_trade := false })

/-- Distinct whole-number signals for the ten tickers `0..9`. -/
def wSig : Nat → ℚ := fun t => ([0, 1, 2, 3, 4, 5, 6, 7, 8, 9] : List ℚ).getD t 0

/-- A concrete creation draw (in range for both clips). -/
def wDraw : InitDraw := { price := 100, signal := 0, phiRaw := 0.5, driftRaw := 0, volRaw := 0.02 }

/-- Creation draws for the generator witness run. -/
def wDraws : Nat → InitDraw := fun _ => wDraw

/-- Day draws for a two-ticker generator run with a vanish event on day `1`:
the top pick is ticker `1`, the bottom pick ticker `2`, the batch-size draw is
`1` (clamped to `1`), and no fill sample is needed. -/
def wOracle : Nat → DayOracle := fun _ =>
  { noise := fun _ => wNoise, batchSizeDraw := 1, cTop := 1, cBot := 2, cMid := 0,
    fill := [], newDraw := fun _ => wDraw, gapDraw := 2 }

/-- A flagged panel with ten safe tickers `0..9` fully present on dates `0..3`:
on rebalance day `0` the survivor pool has ten members. -/
def w10Panel : List FlaggedRow :=
  (List.range 4).flatMap (fun d => (List.range 10).map (fun t =>
    { date := d, ticker := t, close := 100, signal := wSig t, days_to_vanish_trading := 9,
      disappears_t1 := false, disappears_t2 := false, disappears_t3 := false,
      not_safe_to_trade := false }))

/-! ### Helper lemmas on the vanish-batch selector -/

theorem topGroup_subset (active : List Nat) (sig : Nat → ℚ) :
    ∀ x ∈ topGroup active sig, x ∈ active := by
  intro x hx
  exact (List.perm_insertionSort _ active).subset (List.take_subset _ _ hx)

theorem bottomGroup_subset (active : List Nat) (sig : Nat → ℚ) :
    ∀ x ∈ bottomGroup active sig, x ∈ active := by
  intro x hx
  exact (List.perm_insertionSort _ active).subset (List.drop_subset _ _ hx)

theorem middleGroup_subset (active : List Nat) (sig : Nat → ℚ) :
    ∀ x ∈ middleGroup active sig, x ∈ active := by
  intro x hx
  exact (List.perm_insertionSort _ active).subset
    (List.drop_subset _ _ (List.take_subset _ _ hx))

/-- Unpacked form of `validPicks`. -/
theorem validPicks_elim {active : List Nat} {sig : Nat → ℚ} {bs : Nat}
    {cTop cBot cMid : Nat} {fill : List Nat}
    (hv : validPicks active sig bs cTop cBot cMid fill = true) :
    cTop ∈ topGroup active sig ∧ cBot ∈ bottomGroup active sig ∧ cBot ≠ cTop ∧
    (0 < ((middleGroup active sig).filter (fun x => decide (x ≠ cTop ∧ x ≠ cBot))).length →
      cMid ∈ middleGroup active sig ∧ cMid ≠ cTop ∧ cMid ≠ cBot) ∧
    ((mandatoryPicks active sig cTop cBot cMid).length < bs →
      fill.Nodup ∧
      (∀ t ∈ fill, t ∈ active ∧ t ∉ (mandatoryPicks active sig cTop cBot cMid).map Prod.fst) ∧
      fill.length = bs - (mandatoryPicks active sig cTop cBot cMid).length) := by
  unfold validPicks at hv
  simp only [Bool.and_eq_true, decide_eq_true_eq] at hv
  obtain ⟨⟨⟨⟨h1, h2⟩, h3⟩, h4⟩, h5⟩ := hv
  refine ⟨h1, h2, h3, ?_, ?_⟩
  · intro hmid
    rw [if_pos hmid] at h4
    simp only [Bool.and_eq_true, decide_eq_true_eq] at h4
    exact ⟨h4.1.1, h4.1.2, h4.2⟩
  · intro hlen
    rw [if_pos hlen] at h5
    simp only [Bool.and_eq_true, decide_eq_true_eq] at h5
    exact ⟨h5.1.1, h5.1.2, h5.2⟩

/-- The tickers of the mandatory picks. -/
theorem mandatoryPicks_map_fst (active : List Nat) (sig : Nat → ℚ) (cTop cBot cMid : Nat) :
    (0 < ((middleGroup active sig).filter (fun x => decide (x ≠ cTop ∧ x ≠ cBot))).length ∧
      (mandatoryPicks active sig cTop cBot cMid).map Prod.fst = [cTop, cBot, cMid]) ∨
    (¬ 0 < ((middleGroup active sig).filter (fun x => decide (x ≠ cTop ∧ x ≠ cBot))).length ∧
      (mandatoryPicks active sig cTop cBot cMid).map Prod.fst = [cTop, cBot]) := by
  unfold mandatoryPicks
  by_cases h : 0 < ((middleGroup active sig).filter (fun x => decide (x ≠ cTop ∧ x ≠ cBot))).length
  · rw [if_pos h]; left; exact ⟨h, rfl⟩
  · rw [if_neg h]; right; exact ⟨h, rfl⟩

/-- The selector's output: its ticker list is the mandatory tickers followed by
the fill sample (when one is drawn), distinct, drawn from the active set, and
of size `batch_size` whenever `batch_size` covers the mandatory picks. -/
theorem select_vanish_batch_spec (active : List Nat) (sig : Nat → ℚ) (bs : Nat)
    (cTop cBot cMid : Nat) (fill : List Nat)
    (hv : validPicks active sig bs cTop cBot cMid fill = true) :
    ((select_vanish_batch active sig bs cTop cBot cMid fill).map Prod.fst).Nodup ∧
    (∀ x ∈ (select_vanish_batch active sig bs cTop cBot cMid fill).map Prod.fst, x ∈ active) ∧
    ((mandatoryPicks active sig cTop cBot cMid).length ≤ bs →
      (select_vanish_batch active sig bs cTop cBot cMid fill).length = bs) := by
  obtain ⟨hTop, hBot, hne, hmid, hfill⟩ := validPicks_elim hv
  have hmandsub : ∀ x ∈ (mandatoryPicks active sig cTop cBot cMid).map Prod.fst, x ∈ active := by
    rcases mandatoryPicks_map_fst active sig cTop cBot cMid with ⟨hc, h⟩ | ⟨hc, h⟩ <;>
      rw [h] <;> intro x hx <;>
      simp only [List.mem_cons, List.not_mem_nil, or_false] at hx
    · rcases hx with e | e | e <;> rw [e]
      · exact topGroup_subset _ _ _ hTop
      · exact bottomGroup_subset _ _ _ hBot
      · exact middleGroup_subset _ _ _ (hmid hc).1
    · rcases hx with e | e <;> rw [e]
      · exact topGroup_subset _ _ _ hTop
      · exact bottomGroup_subset _ _ _ hBot
  have hmandnd : ((mandatoryPicks active sig cTop cBot cMid).map Prod.fst).Nodup := by
    rcases mandatoryPicks_map_fst active sig cTop cBot cMid with ⟨hc, h⟩ | ⟨hc, h⟩ <;> rw [h]
    · have h1 : cBot ≠ cTop := hne
      have h2 : cMid ≠ cTop := (hmid hc).2.1
      have h3 : cMid ≠ cBot := (hmid hc).2.2
      simp [List.nodup_cons, Ne.symm h1, Ne.symm h2, Ne.symm h3]
    · have h1 : cBot ≠ cTop := hne
      simp [List.nodup_cons, Ne.symm h1]
  unfold select_vanish_batch
  by_cases hlt : (mandatoryPicks active sig cTop cBot cMid).length < bs
  · obtain ⟨hfnd, hfmem, hflen⟩ := hfill hlt
    rw [if_pos hlt]
    have hmapfill : (fill.map (fun t => (t, fillLabel active sig t))).map Prod.fst = fill := by
      rw [List.map_map]
      exact List.map_id' fill
    constructor
    · rw [List.map_append, hmapfill]
      refine List.Nodup.append hmandnd hfnd ?_
      intro x hx hxf
      exact (hfmem x hxf).2 hx
    constructor
    · intro x hx
      rw [List.map_append, hmapfill] at hx
      rcases List.mem_append.mp hx with hx | hx
      · exact hmandsub x hx
      · exact (hfmem x hx).1
    · intro _
      rw [List.length_append, List.length_map, hflen]
      omega
  · rw [if_neg hlt]
    refine ⟨hmandnd, hmandsub, fun hle => ?_⟩
    exact le_antisymm hle (Nat.not_lt.mp hlt)

/-! ### C7: the one-day simulation step is total and keeps prices positive -/

/-- C7: for every ticker state with a positive last price, `simulate_next`
returns a strictly positive next price; whenever the computed
multiplicative-walk price is non-positive it is replaced by
`max(0.5, last_price * 0.5)`. -/
theorem simulate_next_price_pos (st : TickerState) (nz : SimNoise)
    (_h : 0 < st.last_price) :
    0 < ((simulate_next st nz).1).1 ∧
    (st.last_price * (1 + st.drift + nz.shock) ≤ 0 →
      ((simulate_next st nz).1).1 = max (0.5 : ℚ) (st.last_price * (0.5 : ℚ))) := by
  have hmain : ((simulate_next st nz).1).1 =
      if st.last_price * (1 + st.drift + nz.shock) ≤ 0
      then max (0.5 : ℚ) (st.last_price * (0.5 : ℚ))
      else st.last_price * (1 + st.drift + nz.shock) := rfl
  rw [hmain]
  by_cases hr : st.last_price * (1 + st.drift + nz.shock) ≤ 0
  · rw [if_pos hr]
    exact ⟨lt_max_iff.mpr (Or.inl (by norm_num)), fun _ => rfl⟩
  · rw [if_neg hr]
    exact ⟨not_le.mp hr, fun hc => absurd hc hr⟩

/-- Witness for C7 at a concrete state and draw. -/
theorem simulate_next_price_pos_witness :
    0 < wTick.last_price ∧ 0 < ((simulate_next wTick wNoise).1).1 :=
  ⟨by norm_num [wTick], (simulate_next_price_pos wTick wNoise (by norm_num [wTick])).1⟩

/-! ### C4: size of the vanish batch -/

/-- C4 (amended): whenever the sampling contracts hold and the target batch
size `B` is at least the number of mandatory stratum picks, the selector
returns exactly `B` distinct tickers, all drawn from the active set.  (As
stated over every `B` the claim fails: see the counterexample.) -/
theorem select_vanish_batch_size (active : List Nat) (sig : Nat → ℚ) (bs : Nat)
    (cTop cBot cMid : Nat) (fill : List Nat)
    (hv : validPicks active sig bs cTop cBot cMid fill = true)
    (hbs : (mandatoryPicks active sig cTop cBot cMid).length ≤ bs) :
    ((select_vanish_batch active sig bs cTop cBot cMid fill).map Prod.fst).Nodup ∧
    (∀ x ∈ (select_vanish_batch active sig bs cTop cBot cMid fill).map Prod.fst, x ∈ active) ∧
    (select_vanish_batch active sig bs cTop cBot cMid fill).length = bs := by
  obtain ⟨h1, h2, h3⟩ := select_vanish_batch_spec active sig bs cTop cBot cMid fill hv
  exact ⟨h1, h2, h3 hbs⟩

/-- Counterexample to C4 as stated: on the active set `{0,1,2,3}` with
signals `t ↦ t` and target batch size `B = 1`, valid draws exist for which
the selector returns its `3` mandatory picks, not `1` ticker. -/
theorem select_vanish_batch_size_cx :
    validPicks [0, 1, 2, 3] cSig4 1 3 0 2 [] = true ∧
    (select_vanish_batch [0, 1, 2, 3] cSig4 1 3 0 2 []).length ≠ 1 := by
  decide

/-- Witness for the amended C4 at a concrete input with a fill draw. -/
theorem select_vanish_batch_size_witness :
    (select_vanish_batch [0, 1, 2, 3] cSig4 4 3 0 2 [1]).length = 4 :=
  (select_vanish_batch_size [0, 1, 2, 3] cSig4 4 3 0 2 [1] (by decide) (by decide)).2.2

/-! ### C5: every vanish batch covers the three signal strata -/

/-- C5: under the sampling contracts, the returned batch contains the top-pick
(a member of the top-`⌈n·0.10⌉` stratum), the bottom-pick (a member of the
bottom-`⌈n·0.10⌉` stratum), and — whenever the middle stratum minus the first
two picks is non-empty — the middle-pick (a member of the middle stratum). -/
theorem select_vanish_batch_covers_strata (active : List Nat) (sig : Nat → ℚ) (bs : Nat)
    (cTop cBot cMid : Nat) (fill : List Nat)
    (hv : validPicks active sig bs cTop cBot cMid fill = true) :
    (cTop ∈ (select_vanish_batch active sig bs cTop cBot cMid fill).map Prod.fst ∧
      cTop ∈ topGroup active sig) ∧
    (cBot ∈ (select_vanish_batch active sig bs cTop cBot cMid fill).map Prod.fst ∧
      cBot ∈ bottomGroup active sig) ∧
    (0 < ((middleGroup active sig).filter (fun x => decide (x ≠ cTop ∧ x ≠ cBot))).length →
      cMid ∈ (select_vanish_batch active sig bs cTop cBot cMid fill).map Prod.fst ∧
      cMid ∈ middleGroup active sig) := by
  obtain ⟨hTop, hBot, hne, hmid, hfill⟩ := validPicks_elim hv
  have hpre : ∀ x ∈ (mandatoryPicks active sig cTop cBot cMid).map Prod.fst,
      x ∈ (select_vanish_batch active sig bs cTop cBot cMid fill).map Prod.fst := by
    intro x hx
    unfold select_vanish_batch
    by_cases hlt : (mandatoryPicks active sig cTop cBot cMid).length < bs
    · rw [if_pos hlt, List.map_append]
      exact List.mem_append_left _ hx
    · rw [if_neg hlt]
      exact hx
  have hT : cTop ∈ (mandatoryPicks active sig cTop cBot cMid).map Prod.fst := by
    rcases mandatoryPicks_map_fst active sig cTop cBot cMid with ⟨_, h⟩ | ⟨_, h⟩ <;>
      rw [h] <;> simp
  have hB : cBot ∈ (mandatoryPicks active sig cTop cBot cMid).map Prod.fst := by
    rcases mandatoryPicks_map_fst active sig cTop cBot cMid with ⟨_, h⟩ | ⟨_, h⟩ <;>
      rw [h] <;> simp
  refine ⟨⟨hpre _ hT, hTop⟩, ⟨hpre _ hB, hBot⟩, fun hc => ⟨?_, (hmid hc).1⟩⟩
  have hM : cMid ∈ (mandatoryPicks active sig cTop cBot cMid).map Prod.fst := by
    rcases mandatoryPicks_map_fst active sig cTop cBot cMid with ⟨_, h⟩ | ⟨hc', _⟩
    · rw [h]; simp
    · exact absurd hc hc'
  exact hpre _ hM

/-- Witness for C5 at a concrete input. -/
theorem select_vanish_batch_covers_strata_witness :
    3 ∈ (select_vanish_batch [0, 1, 2, 3] cSig4 4 3 0 2 [1]).map Prod.fst ∧
    0 ∈ (select_vanish_batch [0, 1, 2, 3] cSig4 4 3 0 2 [1]).map Prod.fst ∧
    2 ∈ (select_vanish_batch [0, 1, 2, 3] cSig4 4 3 0 2 [1]).map Prod.fst :=
  ⟨(select_vanish_batch_covers_strata [0, 1, 2, 3] cSig4 4 3 0 2 [1] (by decide)).1.1,
   (select_vanish_batch_covers_strata [0, 1, 2, 3] cSig4 4 3 0 2 [1] (by decide)).2.1.1,
   ((select_vanish_batch_covers_strata [0, 1, 2, 3] cSig4 4 3 0 2 [1] (by decide)).2.2
      (by decide)).1⟩

/-! ### C9: the flagger is idempotent -/

/-- C9: stripping the derived columns from a flagged panel and re-running the
flagger reproduces the flagged panel exactly (the derived columns are
recomputed from `(ticker, date)` alone); this holds for every input panel, in
particular for panels with unique `(ticker, date)` keys. -/
theorem flag_dataset_idempotent (p : List RawRow) :
    flag_dataset (stripFlags (flag_dataset p)) = flag_dataset p := by
  have hstrip : stripFlags (flag_dataset p) = sortPanel p := by
    unfold stripFlags flag_dataset
    rw [List.map_map]
    exact List.map_id' (sortPanel p)
  rw [hstrip]
  unfold flag_dataset
  have hs : sortPanel (sortPanel p) = sortPanel p := by
    unfold sortPanel
    exact List.Sorted.insertionSort_eq (List.sorted_insertionSort rowLE p)
  rw [hs]

/-! ### C6: the vanish-distance columns -/

/-- The flagged per-ticker sequence is the annotated raw per-ticker sequence. -/
theorem tickerSeq_eq (p : List RawRow) (t : Nat) :
    tickerSeq p t = (rawSeq p t).map (annotateRow (sortPanel p)) := by
  unfold tickerSeq flag_dataset rawSeq
  exact List.filter_map (annotateRow (sortPanel p)) (sortPanel p)

/-- Sorting preserves key uniqueness. -/
theorem sortPanel_keys_nodup (p : List RawRow) (hu : UniqueKeys p) :
    ((sortPanel p).map rowKey).Nodup :=
  (((List.perm_insertionSort rowLE p).map rowKey).nodup_iff).mpr hu

/-- In a list of rows with distinct keys, rows at distinct positions have
distinct keys. -/
theorem keys_getElem_ne {l : List RawRow} (h : (l.map rowKey).Nodup)
    {i j : Nat} (hi : i < l.length) (hj : j < l.length) (hij : i ≠ j) :
    rowKey (l.get ⟨i, hi⟩) ≠ rowKey (l.get ⟨j, hj⟩) := by
  intro he
  have hi2 : i < (l.map rowKey).length := by simpa using hi
  have hj2 : j < (l.map rowKey).length := by simpa using hj
  have h1 : (l.map rowKey).get ⟨i, hi2⟩ = (l.map rowKey).get ⟨j, hj2⟩ := by
    rw [List.get_eq_getElem, List.get_eq_getElem, List.getElem_map, List.getElem_map]
    exact he
  have h2 := (List.Nodup.get_inj_iff h).mp h1
  exact hij (congrArg Fin.val h2)

/-- Within one ticker's group of the sorted panel, dates strictly increase. -/
theorem rawSeq_dates_pairwise (p : List RawRow) (t : Nat) (hu : UniqueKeys p) :
    List.Pairwise (fun a b : RawRow => a.date < b.date) (rawSeq p t) := by
  have hpw : List.Pairwise rowLE (rawSeq p t) :=
    (List.sorted_insertionSort rowLE p).filter _
  have hkeys : ((rawSeq p t).map rowKey).Nodup :=
    ((List.filter_sublist _).map rowKey).nodup (sortPanel_keys_nodup p hu)
  have hmem : ∀ r ∈ rawSeq p t, r.ticker = t := by
    intro r hr
    have := (List.mem_filter.mp hr).2
    simpa using this
  rw [List.pairwise_iff_get] at hpw ⊢
  intro i j hij
  have hle := hpw i j hij
  have hti : ((rawSeq p t).get i).ticker = t := hmem _ (List.get_mem _ _ _)
  have htj : ((rawSeq p t).get j).ticker = t := hmem _ (List.get_mem _ _ _)
  have hdle : ((rawSeq p t).get i).date ≤ ((rawSeq p t).get j).date := by
    rcases hle with h | ⟨_, h⟩
    · rw [hti, htj] at h
      exact absurd h (lt_irrefl t)
    · exact h
  have hdne : ((rawSeq p t).get i).date ≠ ((rawSeq p t).get j).date := by
    intro he
    have hvne : (i : Nat) ≠ (j : Nat) := Nat.ne_of_lt hij
    have hkne := keys_getElem_ne hkeys i.2 j.2 hvne
    exact hkne (by unfold rowKey; rw [hti, htj, he])
  exact lt_of_le_of_ne hdle hdne

/-- The distance column of a row of ticker `t` counts the later rows within
that ticker's group. -/
theorem distOf_eq_countP_seq (p : List RawRow) (t : Nat) (r : RawRow)
    (hrt : r.ticker = t) :
    distOf (sortPanel p) r = (rawSeq p t).countP (fun u => decide (r.date < u.date)) := by
  unfold distOf rawSeq
  rw [List.countP_filter]
  apply List.countP_congr
  intro u _
  simp only [Bool.and_eq_true, decide_eq_true_eq, hrt]
  tauto

/-- Counting the strictly-later elements of a strictly increasing list from
position `j` leaves exactly the elements after `j`. -/
theorem countP_lt_of_pairwise {l : List RawRow}
    (hpw : List.Pairwise (fun a b : RawRow => a.date < b.date) l)
    {j : Nat} (hj : j < l.length) :
    l.countP (fun u => decide ((l.get ⟨j, hj⟩).date < u.date)) = l.length - 1 - j := by
  rw [List.pairwise_iff_getElem] at hpw
  set r := l.get ⟨j, hj⟩ with hr
  have hsplit :
      l.countP (fun u => decide (r.date < u.date)) =
        (l.take (j + 1)).countP (fun u => decide (r.date < u.date)) +
        (l.drop (j + 1)).countP (fun u => decide (r.date < u.date)) := by
    conv_lhs => rw [← List.take_append_drop (j + 1) l]
    rw [List.countP_append]
  have h1 : (l.take (j + 1)).countP (fun u => decide (r.date < u.date)) = 0 := by
    rw [List.countP_eq_zero]
    intro u hu
    obtain ⟨k, hk, he⟩ := List.mem_iff_getElem.mp hu
    have hkboth : k < j + 1 ∧ k < l.length := by simpa using hk
    have hk' : k < l.length := hkboth.2
    have hkj : k ≤ j := by omega
    have hue : u = l[k] := by rw [← he, List.getElem_take]
    rcases Nat.lt_or_ge k j with hlt | hge
    · have hdlt : (l[k]).date < r.date := by
        have := hpw k j hk' hj hlt
        simpa [hr, List.get_eq_getElem] using this
      simp only [hue, decide_eq_true_eq]
      omega
    · have hkj' : k = j := le_antisymm hkj hge
      subst hkj'
      simp only [hue, hr, List.get_eq_getElem, decide_eq_true_eq]
      omega
  have h2 : (l.drop (j + 1)).countP (fun u => decide (r.date < u.date)) =
      (l.drop (j + 1)).length := by
    rw [List.countP_eq_length]
    intro u hu
    obtain ⟨k, hk, he⟩ := List.mem_iff_getElem.mp hu
    have hk' : j + 1 + k < l.length := by
      have := hk
      simp only [List.length_drop] at this
      omega
    have hue : u = l[j + 1 + k] := by rw [← he, List.getElem_drop]
    have hdlt : r.date < (l[j + 1 + k]).date := by
      have := hpw j (j + 1 + k) hj hk' (by omega)
      simpa [hr, List.get_eq_getElem] using this
    simp only [hue, decide_eq_true_eq]
    exact hdlt
  rw [hsplit, h1, h2, List.length_drop]
  omega

/-- Rows of the per-ticker raw sequence have ticker `t`. -/
theorem rawSeq_ticker (p : List RawRow) (t : Nat) :
    ∀ r ∈ rawSeq p t, r.ticker = t := by
  intro r hr
  have := (List.mem_filter.mp hr).2
  simpa using this

/-- C6: on a panel with unique `(ticker, date)` keys, the flagger's derived
columns satisfy `disappears_t1 ↔ distance = 1` and
`unsafe_to_trade ↔ 1 ≤ distance ≤ HOLDING_PERIOD`, and within each ticker's
ascending-date sequence the `j`-th of `m` records carries distance
`m - 1 - j`: the distance strictly decreases by `1` per record down to `0` on
the final recorded date and is never negative. -/
theorem flag_dataset_distance (p : List RawRow) (hu : UniqueKeys p) :
    (∀ fr ∈ flag_dataset p,
        fr.disappears_t1 = decide (fr.days_to_vanish_trading = 1) ∧
        fr.not_safe_to_trade =
          decide (1 ≤ fr.days_to_vanish_trading ∧ fr.days_to_vanish_trading ≤ HOLDING_PERIOD)) ∧
    (∀ (t j : Nat) (hj : j < (tickerSeq p t).length),
        ((tickerSeq p t).get ⟨j, hj⟩).days_to_vanish_trading = (tickerSeq p t).length - 1 - j) := by
  constructor
  · intro fr hfr
    unfold flag_dataset at hfr
    obtain ⟨r, hr, rfl⟩ := List.mem_map.mp hfr
    exact ⟨rfl, rfl⟩
  · intro t j hj
    have hlen : (tickerSeq p t).length = (rawSeq p t).length := by
      rw [tickerSeq_eq, List.length_map]
    have hj' : j < (rawSeq p t).length := hlen ▸ hj
    have hget : (tickerSeq p t).get ⟨j, hj⟩ =
        annotateRow (sortPanel p) ((rawSeq p t).get ⟨j, hj'⟩) := by
      rw [List.get_eq_getElem, List.get_eq_getElem, List.getElem_of_eq (tickerSeq_eq p t),
        List.getElem_map]
    rw [hget, hlen]
    have hdays : (annotateRow (sortPanel p) ((rawSeq p t).get ⟨j, hj'⟩)).days_to_vanish_trading =
        distOf (sortPanel p) ((rawSeq p t).get ⟨j, hj'⟩) := rfl
    rw [hdays,
      distOf_eq_countP_seq p t _ (rawSeq_ticker p t _ (List.get_mem _ _ _))]
    exact countP_lt_of_pairwise (rawSeq_dates_pairwise p t hu) hj'

/-- Witness for C6 at a concrete panel. -/
theorem flag_dataset_distance_witness :
    UniqueKeys pW ∧
    ((tickerSeq pW 0).get ⟨0, by decide⟩).days_to_vanish_trading =
      (tickerSeq pW 0).length - 1 - 0 :=
  ⟨by decide, (flag_dataset_distance pW (by decide)).2 0 0 (by decide)⟩

/-! ### Helper lemmas on the rebalancing engine -/

theorem shorts_subset_tradable (panel : List FlaggedRow) (i : Nat) :
    ∀ t ∈ shorts panel i, t ∈ tradable panel i := by
  intro t ht
  exact (List.perm_insertionSort _ _).subset (List.take_subset _ _ ht)

theorem longs_subset_tradable (panel : List FlaggedRow) (i : Nat) :
    ∀ t ∈ longs panel i, t ∈ tradable panel i := by
  intro t ht
  have h1 : t ∈ (tradSortAsc panel i).reverse := List.take_subset _ _ ht
  exact (List.perm_insertionSort _ _).subset (List.mem_reverse.mp h1)

/-- With fewer than `HOLDING_PERIOD` future days, the pool is the empty slice. -/
theorem tradable_eq_nil (panel : List FlaggedRow) (i : Nat)
    (hlen : (tradingDates panel).length ≤ i + HOLDING_PERIOD) :
    tradable panel i = [] := by
  unfold tradable
  rw [if_neg (by omega)]

/-- A pool member passed the forward-lookahead filter. -/
theorem tradable_lookahead (panel : List FlaggedRow) (i : Nat) :
    ∀ t ∈ tradable panel i, lookaheadOk panel i t = true := by
  intro t ht
  unfold tradable at ht
  by_cases hc : i + HOLDING_PERIOD < (tradingDates panel).length
  · rw [if_pos hc] at ht
    exact (List.mem_filter.mp ht).2
  · rw [if_neg hc] at ht
    exact absurd ht (List.not_mem_nil t)

/-! ### C2: selected tickers survive the whole lookahead window -/

/-- C2: any ticker with a nonzero weight on rebalance day `i` has a
non-missing price on day `i` and on each of the next `HOLDING_PERIOD` trading
days; and when fewer than `HOLDING_PERIOD` trading days remain after `i`, the
candidate pool is forced empty and no nonzero weight is assigned. -/
theorem rebalance_lookahead_safe (panel : List FlaggedRow) (i : Nat) :
    (∀ t w, weightCell panel i t = some w → w ≠ 0 →
      ∀ off, off ≤ HOLDING_PERIOD →
        (priceAt panel (dateIdx panel (i + off)) t).isSome = true) ∧
    ((tradingDates panel).length ≤ i + HOLDING_PERIOD →
      tradable panel i = [] ∧ ∀ t w, weightCell panel i t = some w → w = 0) := by
  constructor
  · intro t w hw hw0 off hoff
    unfold weightCell at hw
    by_cases hreb : i % HOLDING_PERIOD = 0
    · rw [if_pos hreb] at hw
      have hw' := Option.some.inj hw
      have htrad : t ∈ tradable panel i := by
        by_cases hs : t ∈ shorts panel i
        · exact shorts_subset_tradable panel i t hs
        · by_cases hl : t ∈ longs panel i
          · exact longs_subset_tradable panel i t hl
          · rw [if_neg hs, if_neg hl] at hw'
            exact absurd hw'.symm hw0
      have hla := tradable_lookahead panel i t htrad
      unfold lookaheadOk at hla
      rw [List.all_eq_true] at hla
      exact hla off (List.mem_range.mpr (by omega))
    · rw [if_neg hreb] at hw
      exact absurd hw (by simp)
  · intro hlen
    have htr := tradable_eq_nil panel i hlen
    refine ⟨htr, fun t w hw => ?_⟩
    unfold weightCell at hw
    by_cases hreb : i % HOLDING_PERIOD = 0
    · rw [if_pos hreb] at hw
      have hts : tradSortAsc panel i = [] := by
        unfold tradSortAsc
        rw [htr]
        rfl
      have hsh : shorts panel i = [] := by
        unfold shorts
        rw [hts]
        rfl
      have hlg : longs panel i = [] := by
        unfold longs
        rw [hts]
        rfl
      rw [hsh, hlg] at hw
      have hw' := Option.some.inj hw
      simp only [List.not_mem_nil, if_false] at hw'
      exact hw'.symm
    · rw [if_neg hreb] at hw
      exact absurd hw (by simp)

/-- Witness for C2: on a one-date panel, day `0` is within `HOLDING_PERIOD`
days of the calendar's end, and the pool is forced empty. -/
theorem rebalance_lookahead_safe_witness :
    (tradingDates wPanelTiny).length ≤ 0 + HOLDING_PERIOD ∧ tradable wPanelTiny 0 = [] :=
  ⟨by decide, ((rebalance_lookahead_safe wPanelTiny 0).2 (by decide)).1⟩

/-! ### C8: instructions appear only on rebalance days -/

/-- C8: on a rebalance day (`i % HOLDING_PERIOD == 0`) every ticker's cell is
populated — with the explicit-flatten value `0.0` unless the ticker was
selected long or short; on every other day every cell stays missing (hold). -/
theorem weight_matrix_frame (panel : List FlaggedRow) (i t : Nat) :
    (i % HOLDING_PERIOD ≠ 0 → weightCell panel i t = none) ∧
    (i % HOLDING_PERIOD = 0 → (weightCell panel i t).isSome = true) ∧
    (i % HOLDING_PERIOD = 0 → t ∉ longs panel i → t ∉ shorts panel i →
      weightCell panel i t = some 0) := by
  refine ⟨fun h => ?_, fun h => ?_, fun h hl hs => ?_⟩
  · unfold weightCell
    rw [if_neg h]
  · unfold weightCell
    rw [if_pos h]
    rfl
  · unfold weightCell
    rw [if_pos h, if_neg hs, if_neg hl]

/-- Witness for C8: a hold cell on day `1` and a populated cell on day `0`. -/
theorem weight_matrix_frame_witness :
    weightCell wPanelTiny 1 0 = none ∧ (weightCell wPanelTiny 0 0).isSome = true :=
  ⟨(weight_matrix_frame wPanelTiny 1 0).1 (by decide),
   (weight_matrix_frame wPanelTiny 0 0).2.1 (by decide)⟩

/-! ### C10: tickers without a record on the rebalance day get no weight -/

/-- C10: a ticker with no record in the panel on rebalance day `i` (missing
signal, and `unsafe` filled `True`) is never assigned a nonzero weight. -/
theorem missing_record_no_weight (panel : List FlaggedRow) (i t : Nat)
    (hmiss : pivotCell panel (dateIdx panel i) t = none) :
    ∀ w, weightCell panel i t = some w → w = 0 := by
  intro w hw
  have hsig : (signalAt panel (dateIdx panel i) t).isSome = false := by
    unfold signalAt
    rw [hmiss]
    rfl
  have hnot0 : t ∉ tradable0 panel i := by
    intro hmem
    have h2 := (List.mem_filter.mp hmem).2
    rw [Bool.and_eq_true] at h2
    rw [hsig] at h2
    exact absurd h2.1 (by simp)
  have hnt : t ∉ tradable panel i := by
    unfold tradable
    by_cases hc : i + HOLDING_PERIOD < (tradingDates panel).length
    · rw [if_pos hc]
      intro hmem
      exact hnot0 (List.mem_of_mem_filter hmem)
    · rw [if_neg hc]
      exact List.not_mem_nil t
  have hns : t ∉ shorts panel i := fun hmem => hnt (shorts_subset_tradable panel i t hmem)
  have hnl : t ∉ longs panel i := fun hmem => hnt (longs_subset_tradable panel i t hmem)
  unfold weightCell at hw
  by_cases hreb : i % HOLDING_PERIOD = 0
  · rw [if_pos hreb, if_neg hns, if_neg hnl] at hw
    exact (Option.some.inj hw).symm
  · rw [if_neg hreb] at hw
    exact absurd hw (by simp)

/-- Witness for C10: ticker `99` has no record on day `0` and its cell holds
the flatten value `0.0`. -/
theorem missing_record_no_weight_witness :
    pivotCell wPanelTiny (dateIdx wPanelTiny 0) 99 = none ∧ (0 : ℚ) = 0 :=
  ⟨by decide, missing_record_no_weight wPanelTiny 0 99 (by decide) 0 (by decide)⟩

/-! ### C3: the row sum of assigned weights on a rebalance day -/

theorem sum_map_ite (l : List Nat) (p : Nat → Bool) (c : ℚ) :
    (l.map (fun t => if p t then c else 0)).sum = c * (l.countP p : ℚ) := by
  induction l with
  | nil => simp
  | cons a l ih =>
    simp only [List.map_cons, List.sum_cons, ih, List.countP_cons]
    by_cases hp : p a
    · rw [if_pos hp, if_pos hp]
      push_cast
      ring
    · rw [if_neg hp, if_neg (by simpa using hp)]
      push_cast
      ring

theorem sum_map_add (l : List Nat) (f g : Nat → ℚ) :
    (l.map (fun t => f t + g t)).sum = (l.map f).sum + (l.map g).sum := by
  induction l with
  | nil => simp
  | cons a l ih =>
    simp only [List.map_cons, List.sum_cons, ih]
    ring

/-- Counting with a predicate that carves out a sub-multiset `m` of a
duplicate-free list counts `m` exactly. -/
theorem countP_eq_length_of_sub {cols m : List Nat} (p : Nat → Bool)
    (hc : cols.Nodup) (hm : m.Nodup) (hsub : ∀ t ∈ m, t ∈ cols)
    (hp : ∀ t, p t = true ↔ t ∈ m) :
    cols.countP p = m.length := by
  rw [List.countP_eq_length_filter]
  have hperm : (cols.filter p).Perm m := by
    apply (List.perm_ext_iff_of_nodup (hc.filter p) hm).mpr
    intro a
    rw [List.mem_filter]
    constructor
    · rintro ⟨_, hpa⟩
      exact (hp a).mp hpa
    · intro ha
      exact ⟨hsub a ha, (hp a).mpr ha⟩
  exact hperm.length_eq

/-- The pivot's columns are duplicate-free. -/
theorem tickerCols_nodup (panel : List FlaggedRow) : (tickerCols panel).Nodup :=
  ((List.perm_insertionSort _ _).nodup_iff).mpr (List.nodup_dedup _)

/-- The survivor pool is duplicate-free. -/
theorem tradable_nodup (panel : List FlaggedRow) (i : Nat) : (tradable panel i).Nodup := by
  unfold tradable
  by_cases hc : i + HOLDING_PERIOD < (tradingDates panel).length
  · rw [if_pos hc]
    exact ((tickerCols_nodup panel).filter _).filter _
  · rw [if_neg hc]
    exact List.nodup_nil

/-- Pool members are pivot columns. -/
theorem tradable_subset_cols (panel : List FlaggedRow) (i : Nat) :
    ∀ t ∈ tradable panel i, t ∈ tickerCols panel := by
  intro t ht
  unfold tradable at ht
  by_cases hc : i + HOLDING_PERIOD < (tradingDates panel).length
  · rw [if_pos hc] at ht
    exact List.mem_of_mem_filter (List.mem_of_mem_filter ht)
  · rw [if_neg hc] at ht
    exact absurd ht (List.not_mem_nil t)

/-- C3 (amended): on a rebalance day whose survivor pool has at least
`N_LONGS + N_SHORTS` members (so the long and short slices are disjoint), the
sum of the nonzero weights assigned in that row equals
`LONG_ALLOCATION + SHORT_ALLOCATION`.  (As stated — for every non-empty
selection — the claim fails, because with a smaller pool the short loop
overwrites overlapping long cells: see the counterexample.) -/
theorem rebalance_weight_sum (panel : List FlaggedRow) (i : Nat)
    (hreb : i % HOLDING_PERIOD = 0)
    (hpool : N_LONGS + N_SHORTS ≤ (tradable panel i).length) :
    rowWeightSum panel i = LONG_ALLOCATION + SHORT_ALLOCATION := by
  have hslen : (tradSortAsc panel i).length = (tradable panel i).length :=
    (List.perm_insertionSort _ _).length_eq
  have hsnd : (tradSortAsc panel i).Nodup :=
    ((List.perm_insertionSort _ _).nodup_iff).mpr (tradable_nodup panel i)
  set s := tradSortAsc panel i with hs
  have hn10 : 10 ≤ s.length := by
    rw [hslen]
    simpa [N_LONGS, N_SHORTS] using hpool
  -- the two slices: `shorts` is the first five of `s`, `longs` the last five
  have hsplit : s.take 5 ++ s.drop 5 = s := List.take_append_drop 5 s
  have hdisj : (s.take 5).Disjoint (s.drop 5) :=
    List.disjoint_of_nodup_append (hsplit.symm ▸ hsnd)
  have hlongs_eq : longs panel i = ((s.drop 5).reverse).take 5 := by
    unfold longs
    rw [← hs, show N_LONGS = 5 from rfl]
    conv_lhs => rw [← hsplit]
    rw [List.reverse_append, List.take_append_eq_append_take, List.length_reverse,
      List.length_drop]
    have h0 : 5 - (s.length - 5) = 0 := by omega
    rw [h0, List.take_zero, List.append_nil]
  have hshorts_eq : shorts panel i = s.take 5 := rfl
  have hlsub : ∀ t ∈ longs panel i, t ∈ s.drop 5 := by
    intro t ht
    rw [hlongs_eq] at ht
    exact List.mem_reverse.mp (List.take_subset _ _ ht)
  have hldisj : ∀ t ∈ longs panel i, t ∉ shorts panel i := by
    intro t ht hts
    rw [hshorts_eq] at hts
    exact hdisj hts (hlsub t ht)
  have hllen : (longs panel i).length = 5 := by
    rw [hlongs_eq, List.length_take, List.length_reverse, List.length_drop]
    omega
  have hshlen : (shorts panel i).length = 5 := by
    rw [hshorts_eq, List.length_take]
    omega
  have hlnd : (longs panel i).Nodup := by
    rw [hlongs_eq]
    exact (List.take_sublist _ _).nodup (List.nodup_reverse.mpr ((List.drop_sublist _ _).nodup hsnd))
  have hshnd : (shorts panel i).Nodup := by
    rw [hshorts_eq]
    exact (List.take_sublist _ _).nodup hsnd
  have hlcols : ∀ t ∈ longs panel i, t ∈ tickerCols panel := fun t ht =>
    tradable_subset_cols panel i t (longs_subset_tradable panel i t ht)
  have hshcols : ∀ t ∈ shorts panel i, t ∈ tickerCols panel := fun t ht =>
    tradable_subset_cols panel i t (shorts_subset_tradable panel i t ht)
  -- rewrite each cell's contribution and split the sum
  have hcell : ∀ t, (weightCell panel i t).getD 0 =
      (if decide (t ∈ shorts panel i) then SHORT_W else 0) +
      (if decide (t ∈ longs panel i) && !decide (t ∈ shorts panel i) then LONG_W else 0) := by
    intro t
    unfold weightCell
    rw [if_pos hreb]
    by_cases h1 : t ∈ shorts panel i
    · simp [h1]
    · by_cases h2 : t ∈ longs panel i
      · simp [h1, h2]
      · simp [h1, h2]
  unfold rowWeightSum
  rw [List.map_congr_left (fun t _ => hcell t), sum_map_add, sum_map_ite, sum_map_ite]
  have hcount1 : (tickerCols panel).countP (fun t => decide (t ∈ shorts panel i)) = 5 := by
    rw [countP_eq_length_of_sub _ (tickerCols_nodup panel) hshnd hshcols
      (fun t => by simp), hshlen]
  have hcount2 : (tickerCols panel).countP
      (fun t => decide (t ∈ longs panel i) && !decide (t ∈ shorts panel i)) = 5 := by
    rw [countP_eq_length_of_sub _ (tickerCols_nodup panel) hlnd hlcols
      (fun t => by
        simp only [Bool.and_eq_true, Bool.not_eq_true', decide_eq_true_eq, decide_eq_false_iff_not]
        constructor
        · exact fun h => h.1
        · exact fun h => ⟨h, hldisj t h⟩), hllen]
  rw [hcount1, hcount2]
  norm_num [SHORT_W, LONG_W, SHORT_ALLOCATION, LONG_ALLOCATION, N_LONGS, N_SHORTS]

/-- Counterexample to C3 as stated: on `cxPanel` the rebalance-day-`0`
selection is non-empty (the single survivor is picked both long and short, and
the short weight overwrites the long one), yet the row sum is `SHORT_W`, not
`LONG_ALLOCATION + SHORT_ALLOCATION`. -/
theorem rebalance_weight_sum_cx :
    0 % HOLDING_PERIOD = 0 ∧
    longs cxPanel 0 ++ shorts cxPanel 0 ≠ [] ∧
    rowWeightSum cxPanel 0 ≠ LONG_ALLOCATION + SHORT_ALLOCATION := by
  refine ⟨rfl, by decide, ?_⟩
  have h7 : weightCell cxPanel 0 7 = some SHORT_W := rfl
  have hcols : tickerCols cxPanel = [7] := by decide
  unfold rowWeightSum
  rw [hcols]
  simp only [List.map_cons, List.map_nil, List.sum_cons, List.sum_nil, h7, Option.getD_some]
  norm_num [SHORT_W, SHORT_ALLOCATION, LONG_ALLOCATION, N_SHORTS]

/-- Witness for the amended C3: ten safe survivors on day `0`. -/
theorem rebalance_weight_sum_witness :
    rowWeightSum w10Panel 0 = LONG_ALLOCATION + SHORT_ALLOCATION :=
  rebalance_weight_sum w10Panel 0 rfl (by decide)

/-! ### C1: the generator keeps the universe size invariant -/

theorem countP_not_add (l : List Nat) (p : Nat → Bool) :
    l.countP p + l.countP (fun a => !(p a)) = l.length := by
  induction l with
  | nil => simp
  | cons a l ih =>
    by_cases h : p a <;>
      simp [List.countP_cons, h, ← ih] <;> omega

/-- Removing the scheduled batch brings the active list back to size `n`. -/
theorem afterRemoval_length {n : Nat} {s : GenState} (hinv : GenInv n s) :
    (afterRemoval s).length = n := by
  obtain ⟨hand, hrnd, hsub, hlen, -⟩ := hinv
  unfold afterRemoval
  have h1 : (s.active.filter (fun t => decide (t ∉ s.toRemoveNext))).length
      = s.active.countP (fun t => decide (t ∉ s.toRemoveNext)) :=
    (List.countP_eq_length_filter _ _).symm
  have h2 := countP_not_add s.active (fun t => decide (t ∈ s.toRemoveNext))
  have h3 : s.active.countP (fun t => decide (t ∈ s.toRemoveNext)) = s.toRemoveNext.length :=
    countP_eq_length_of_sub _ hand hrnd hsub (fun t => by simp)
  have h4 : s.active.countP (fun t => decide (t ∉ s.toRemoveNext))
      = s.active.countP (fun t => !(decide (t ∈ s.toRemoveNext))) :=
    List.countP_congr (fun t _ => by simp)
  rw [h1, h4]
  omega

/-- The initial state satisfies the generator invariant. -/
theorem initGen_inv (n : Nat) (draws : Nat → InitDraw) (gap0 : Nat) :
    GenInv n (initGen n draws gap0) := by
  refine ⟨List.nodup_range' _ _, List.nodup_nil, ?_, ?_, ?_⟩
  · intro t ht
    exact absurd ht (List.not_mem_nil t)
  · simp [initGen, List.length_range']
  · intro t ht
    have := List.mem_range'_1.mp ht
    simp only [initGen]
    omega

/-- Each day's transition preserves the generator invariant: the vanish branch
adds exactly one fresh replacement id per chosen ticker and schedules exactly
the chosen tickers for removal. -/
theorem stepDay_inv {n : Nat} (numDays i : Nat) (o : DayOracle) (s : GenState)
    (hinv : GenInv n s) (hval : validDay i s o) :
    GenInv n (stepDay numDays i o s) := by
  have hact_nd : (afterRemoval s).Nodup := hinv.1.filter _
  have hact_len : (afterRemoval s).length = n := afterRemoval_length hinv
  have hact_id : ∀ t ∈ afterRemoval s, t < s.nextId :=
    fun t ht => hinv.2.2.2.2 t (List.mem_of_mem_filter ht)
  unfold stepDay
  by_cases hv : (i : Int) = s.nextVanish
  · rw [if_pos hv]
    obtain ⟨hcnd, hcsub, -⟩ := select_vanish_batch_spec (afterRemoval s) (simSig s o.noise)
      (min o.batchSizeDraw ((afterRemoval s).length - 1)) o.cTop o.cBot o.cMid o.fill (hval hv)
    have hcnd' : ((vanishChosen s o).map Prod.fst).Nodup := hcnd
    have hcsub' : ∀ x ∈ (vanishChosen s o).map Prod.fst, x ∈ afterRemoval s := hcsub
    refine ⟨?_, hcnd', ?_, ?_, ?_⟩
    · show (afterRemoval s ++ List.range' s.nextId (vanishChosen s o).length).Nodup
      refine List.Nodup.append hact_nd (List.nodup_range' _ _) ?_
      intro x hx hx2
      have h1 := hact_id x hx
      have h2 := (List.mem_range'_1.mp hx2).1
      omega
    · intro t ht
      exact List.mem_append_left _ (hcsub' t ht)
    · show (afterRemoval s ++ List.range' s.nextId (vanishChosen s o).length).length
          = n + ((vanishChosen s o).map Prod.fst).length
      rw [List.length_append, List.length_range', hact_len, List.length_map]
    · intro t ht
      rcases List.mem_append.mp ht with h | h
      · have := hact_id t h
        show t < s.nextId + (vanishChosen s o).length
        omega
      · have := (List.mem_range'_1.mp h).2
        show t < s.nextId + (vanishChosen s o).length
        omega
  · rw [if_neg hv]
    refine ⟨hact_nd, List.nodup_nil, ?_, ?_, ?_⟩
    · intro t ht
      exact absurd ht (List.not_mem_nil t)
    · show (afterRemoval s).length = n + List.length ([] : List Nat)
      simp [hact_len]
    · intro t ht
      exact hact_id t ht

/-- The invariant holds at the start of every day of a run with valid draws. -/
theorem genInv_stateAt (n numDays : Nat) (draws : Nat → InitDraw) (gap0 : Nat)
    (o : Nat → DayOracle)
    (hvalid : ∀ i, i < numDays → validDay i (stateAt numDays (initGen n draws gap0) o i) (o i)) :
    ∀ i, i ≤ numDays → GenInv n (stateAt numDays (initGen n draws gap0) o i) := by
  intro i
  induction i with
  | zero => exact fun _ => initGen_inv n draws gap0
  | succ k ih =>
    intro hk
    exact stepDay_inv numDays k (o k) _ (ih (by omega)) (hvalid k (by omega))

/-- The tickers recorded on a day are exactly the post-removal active list. -/
theorem dayRecs_map_ticker (i : Nat) (s : GenState) (noise : Nat → SimNoise) :
    (dayRecs i s noise).map DailyRecord.ticker = afterRemoval s := by
  unfold dayRecs
  rw [List.map_map]
  exact List.map_id' _

theorem dayRecs_length (i : Nat) (s : GenState) (noise : Nat → SimNoise) :
    (dayRecs i s noise).length = (afterRemoval s).length := by
  unfold dayRecs
  rw [List.length_map]

theorem dayRecords_date (numDays : Nat) (s0 : GenState) (o : Nat → DayOracle) (j : Nat) :
    ∀ r ∈ dayRecords numDays s0 o j, r.date = j := by
  intro r hr
  unfold dayRecords dayRecs at hr
  obtain ⟨t, -, rfl⟩ := List.mem_map.mp hr
  rfl

/-- Flattening a family over `range m` in which only index `i` contributes. -/
theorem flatMap_range_single {α : Type} (m i : Nat) (f : Nat → List α) :
    i < m → (∀ j, j < m → j ≠ i → f j = []) → (List.range m).flatMap f = f i := by
  induction m with
  | zero => intro him _; omega
  | succ k ih =>
    intro him h
    rw [List.range_succ, List.flatMap_append]
    by_cases hik : i = k
    · subst hik
      have h1 : (List.range i).flatMap f = [] := by
        apply List.eq_nil_iff_forall_not_mem.mpr
        intro x hx
        obtain ⟨a, ha, hxa⟩ := List.mem_flatMap.mp hx
        have ha' := List.mem_range.mp ha
        rw [h a (by omega) (by omega)] at hxa
        exact absurd hxa (List.not_mem_nil x)
      rw [h1]
      simp
    · have hk : f k = [] := h k (by omega) (fun e => hik e.symm)
      rw [ih (by omega) (fun j hj hne => h j (by omega) hne)]
      simp [hk]

/-- C1: in every run of the generator whose random draws satisfy the sampling
contracts, every trading day's slice of the generated panel contains records
for exactly `n` distinct tickers (`n = INITIAL_UNIVERSE`, default 50): each
vanish event appends one fresh replacement per chosen ticker and removes
exactly the chosen tickers the following day, so the per-day count never
changes. -/
theorem generator_universe_size (n numDays : Nat) (draws : Nat → InitDraw)
    (gap0 : Nat) (o : Nat → DayOracle)
    (hvalid : ∀ i, i < numDays → validDay i (stateAt numDays (initGen n draws gap0) o i) (o i)) :
    ∀ i, i < numDays →
      ((((generate_synthetic_dataset numDays n draws gap0 o).filter
          (fun r => decide (r.date = i))).map DailyRecord.ticker).dedup).length = n ∧
      ((dayRecords numDays (initGen n draws gap0) o i).map DailyRecord.ticker).Nodup ∧
      (dayRecords numDays (initGen n draws gap0) o i).length = n := by
  intro i hi
  have hinv := genInv_stateAt n numDays draws gap0 o hvalid i (by omega)
  have hnd : ((dayRecords numDays (initGen n draws gap0) o i).map DailyRecord.ticker).Nodup := by
    unfold dayRecords
    rw [dayRecs_map_ticker]
    exact hinv.1.filter _
  have hlen : (dayRecords numDays (initGen n draws gap0) o i).length = n := by
    unfold dayRecords
    rw [dayRecs_length]
    exact afterRemoval_length hinv
  refine ⟨?_, hnd, hlen⟩
  have hfil : (generate_synthetic_dataset numDays n draws gap0 o).filter
      (fun r => decide (r.date = i)) = dayRecords numDays (initGen n draws gap0) o i := by
    unfold generate_synthetic_dataset
    rw [List.filter_flatMap,
      flatMap_range_single numDays i _ hi (fun j hj hne => by
        apply List.filter_eq_nil_iff.mpr
        intro r hr
        simp [dayRecords_date numDays _ o j r hr, hne])]
    apply List.filter_eq_self.mpr
    intro r hr
    simp [dayRecords_date numDays _ o i r hr]
  rw [hfil, List.Nodup.dedup hnd, List.length_map, hlen]

/-- Witness for C1: a two-ticker, two-day run whose vanish event fires on day
`1` retiring one batch; both days record exactly two distinct tickers. -/
theorem generator_universe_size_witness :
    (((generate_synthetic_dataset 2 2 wDraws 1 wOracle).filter
        (fun r => decide (r.date = 0))).map DailyRecord.ticker).dedup.length = 2 ∧
    ((dayRecords 2 (initGen 2 wDraws 1) wOracle 0).map DailyRecord.ticker).Nodup ∧
    (dayRecords 2 (initGen 2 wDraws 1) wOracle 0).length = 2 :=
  generator_universe_size 2 2 wDraws 1 wOracle
    (by
      intro i hi
      match i, hi with
      | 0, _ =>
        intro h0
        exact absurd h0 (by decide)
      | 1, _ =>
        intro h1
        have hs1 : stateAt 2 (initGen 2 wDraws 1) wOracle 1
            = stepDay 2 0 (wOracle 0) (initGen 2 wDraws 1) := rfl
        rw [hs1]
        norm_num [stepDay, vanishChosen, validPicks, topGroup, bottomGroup, middleGroup,
          rankedDesc, stratK, mandatoryPicks, afterRemoval, simState, simSig, simulate_next,
          mkTickerState, initGen, wOracle, wDraws, wDraw, wNoise,
          List.insertionSort, List.orderedInsert])
    0 (by decide)

end SignalLS
